import Mathlib

/-!
Verification of the p3d2gmsh mesh converter (`p3d2gmsh.py`).

The development shallowly embeds the mesh assembly engine of the script:
the global node indexer `_p3d_node_id`, the volume element generator
`_consume_block`, the boundary face generator `_gen_boundary`, the group
allocator `_next_group_id`, the orchestrating `consume`, and the boundary
record loader of `NeutralMapFile.__init__`.

Modelling conventions:
* Python integers are `Int` (no overflow in Python); counters that are
  always non-negative are `Nat`.
* Python strings are `List Char`, so that every operation reduces in the
  kernel; file lines are modelled as the iterator of a Python file object
  yields them, i.e. including their trailing newline when one is present.
* A numpy coordinate array of one block is modelled by its shape
  `(di, dj, dk)` together with three coordinate functions; coordinate
  values are modelled as integers, since no verified property depends on
  them (the script only copies them through).
* A raised Python exception is modelled by an error value; functions that
  mutate `self` before possibly raising return the mutated state together
  with an optional error.
-/

/-- One structured grid block: the shape of its coordinate arrays and the
three coordinate arrays `x`, `y`, `z` of `p3dfmt_file.coords[n]`,
modelled as functions of the logical indices. -/
structure Block where
  di : Nat
  dj : Nat
  dk : Nat
  x : Int → Int → Int → Int
  y : Int → Int → Int → Int
  z : Int → Int → Int → Int

instance : Inhabited Block := ⟨⟨0, 0, 0, fun _ _ _ => 0, fun _ _ _ => 0, fun _ _ _ => 0⟩⟩

/-- The in-memory grid: the ordered list `p3dfmt_file.coords`; the block
count `nblocks` is its length. -/
abbrev P3D := List Block

/-- Number of nodes of one block: `di*dj*dk`, the product of the shape of
its coordinate array. -/
def blockSize (b : Block) : Nat := b.di * b.dj * b.dk

/-- Python list subscription `l[i]`: non-negative indices are direct,
negative indices wrap once from the end, anything else raises `IndexError`
(modelled as `none`). -/
def pyIndex {α : Type} (l : List α) (i : Int) : Option α :=
  if 0 ≤ i then l.get? i.toNat
  else if -i ≤ (l.length : Int) then l.get? (l.length - (-i).toNat) else none

/-- Sum of the block sizes of the blocks preceding position `n`; the loop
`for idx in xrange(n): basen += di*dj*dk` of `_p3d_node_id`.  A negative
`n` gives an empty loop, matching `xrange` on a negative bound. -/
def sizesBefore (p : P3D) (n : Int) : Nat := ((p.take n.toNat).map blockSize).sum

/-- The value `basen` computed by `_p3d_node_id`, including the
`if p3dfmt_file.nblocks > 1` guard of the source. -/
def baseN (p : P3D) (n : Int) : Int :=
  if 1 < p.length then 1 + (sizesBefore p n : Int) else 1

/-- Local row-major offset `k + dk*j + dk*dj*i` of `_p3d_node_id`, taken
from the shape of block `n`. -/
def localId (b : Block) (i j k : Int) : Int :=
  k + (b.dk : Int) * j + (b.dk : Int) * (b.dj : Int) * i

/-- Value computed by `_p3d_node_id` when it does not raise: `basen`
plus the local offset, the shape being read from `coords[n]` with Python
subscription semantics. -/
def nodeIdVal (p : P3D) (n : Int) (i j k : Int) : Int :=
  baseN p n + localId ((pyIndex p n).getD default) i j k

/-- Exceptions of the conversion: `blockOutOfRange` models the
`IndexError` of `_p3d_node_id` and of the `coords[blkn]` subscription,
`invalidFace` the `ValueError('Unknown block face identifier.')`, and
`malformedRecord` the `IndexError`/`ValueError` raised when a boundary
tuple is too short for `bdry[1]` or `s1, e1, s2, e2 = bdry[3:7]`. -/
inductive GmshError where
  | blockOutOfRange : GmshError
  | invalidFace : GmshError
  | malformedRecord : GmshError
deriving DecidableEq

/-- The function `_p3d_node_id`: raises `IndexError` when
`n >= p3dfmt_file.nblocks` (and also when the subsequent subscription
`coords[n]` is out of range on the negative side); otherwise returns the
global node id. -/
def p3d_node_id (p : P3D) (n : Int) (i j k : Int) : Except GmshError Int :=
  if (p.length : Int) ≤ n then .error .blockOutOfRange
  else match pyIndex p n with
    | none => .error .blockOutOfRange
    | some _ => .ok (nodeIdVal p n i j k)

/-- Python `xrange(a, b)` over integers. -/
def intRange (a b : Int) : List Int :=
  (List.range (b - a).toNat).map (fun (t : Nat) => a + (t : Int))

/-- A mesh node as appended by `_consume_block`: the tuple
`(node_id, x[i,j,k], y[i,j,k], z[i,j,k])`. -/
abbrev Node := Int × Int × Int × Int

/-- A mesh element as appended by `_consume_block` / `_gen_boundary`: the
Python list `[el_id, type, 2, group, -1, node ids...]`. -/
abbrev Element := List Int

/-- A physical group tuple `(dimension, id, name)`. -/
abbrev PhysGroup := Nat × Nat × List Char

/-- The mutable state of a `GmshFile` object: the element id counter and
the node, element and group lists. -/
structure GmshFile where
  element_id : Nat
  nodes : List Node
  elements : List Element
  groups : List PhysGroup
deriving DecidableEq

/-- A freshly constructed `GmshFile()`: counter `0`, empty lists. -/
def GmshFile.init : GmshFile := ⟨0, [], [], []⟩

/-- The method `get_next_element_id`: pre-increments the counter and
returns the new value. -/
def get_next_element_id (g : GmshFile) : Nat × GmshFile :=
  (g.element_id + 1, { g with element_id := g.element_id + 1 })

/-- One `el_id = self.get_next_element_id(); ...; self.__elements.append(el)`
step, where `rest` is the element list after its leading id. -/
def emitElement (rest : List Int) (g : GmshFile) : GmshFile :=
  let p := get_next_element_id g
  { p.2 with elements := p.2.elements ++ [((p.1 : Int)) :: rest] }

/-- The method `_next_group_id`: one more than the largest existing group
id.  Python's `max` raises on an empty list; `consume` always installs the
volume group first, so the empty case (modelled as `0 + 1`) is never
reached there. -/
def next_group_id (g : GmshFile) : Nat :=
  (g.groups.map (fun t => t.2.1)).foldl max 0 + 1

/-- The eight corner shifts of `_consume_block`, in source order. -/
def shifts : List (Int × Int × Int) :=
  [(0, -1, -1), (0, 0, -1), (0, 0, 0), (0, -1, 0),
   (1, -1, -1), (1, 0, -1), (1, 0, 0), (1, -1, 0)]

/-- The node-filling triple loop of `_consume_block`: one node tuple per
`(i, j, k)` of the block, `i` outermost, `k` innermost. -/
def blockNodes (p : P3D) (blkn : Nat) (b : Block) : List Node :=
  (intRange 0 (b.di : Int)).flatMap fun i =>
    (intRange 0 (b.dj : Int)).flatMap fun j =>
      (intRange 0 (b.dk : Int)).map fun k =>
        (nodeIdVal p blkn i j k, b.x i j k, b.y i j k, b.z i j k)

/-- The hexahedron element of cell `(j, k)` of `_consume_block`, after its
leading element id: `[5, 2, 1, -1]` followed by the eight shifted corner
node ids. -/
def hexRest (p : P3D) (blkn : Nat) (j k : Int) : List Int :=
  [5, 2, 1, -1] ++ shifts.map fun s => nodeIdVal p blkn s.1 (j + s.2.1) (k + s.2.2)

/-- The method `_consume_block`: appends all nodes of block `blkn`, then
one hexahedron per `(j, k)` with `j in xrange(1, jdim)`,
`k in xrange(1, kdim)`.  At every call site `blkn < len(coords)` holds, so
the range check inside `_p3d_node_id` never fires and the embedding uses
the value function directly. -/
def consume_block (p : P3D) (blkn : Nat) (g : GmshFile) : GmshFile :=
  let b := p.getD blkn default
  let g := { g with nodes := g.nodes ++ blockNodes p blkn b }
  (intRange 1 (b.dj : Int)).foldl (fun g j =>
    (intRange 1 (b.dk : Int)).foldl (fun g k =>
      emitElement (hexRest p blkn j k) g) g) g

/-- The quadrilateral element of `_gen_boundary` after its leading element
id: `[3, 2, gid, -1]` followed by the four corner node ids. -/
def quadRest (gid : Nat) (n1 n2 n3 n4 : Int) : List Int :=
  [3, 2, (gid : Int), -1, n1, n2, n3, n4]

/-- The method `_gen_boundary` for one boundary tuple
`(label, block, face, s1, e1, s2, e2)`.  Mirroring the source order: the
new physical group is appended first; then `coords[bdry[1] - 1]` is
subscripted; then `s1, e1, s2, e2 = bdry[3:7]` is unpacked; then the face
id is dispatched, raising `ValueError` when it is not one of `1..6`.  The
state reached at the point of a raise is returned alongside the error. -/
def gen_boundary (p : P3D) (bdry : List Char × List Int) (g0 : GmshFile) :
    GmshFile × Option GmshError :=
  let gid := next_group_id g0
  let g := { g0 with groups :=
    g0.groups ++ [(2, gid, 'b' :: Nat.toDigits 10 gid ++ '-' :: bdry.1)] }
  match bdry.2 with
  | blk :: rest =>
    let blkn : Int := blk - 1
    match pyIndex p blkn with
    | none => (g, some .blockOutOfRange)
    | some b =>
      let imax : Int := (b.di : Int) - 1
      let jmax : Int := (b.dj : Int) - 1
      let kmax : Int := (b.dk : Int) - 1
      match rest with
      | face :: s1 :: e1 :: s2 :: e2 :: _ =>
        if face = 1 then
          ((intRange (s2 - 1) (e2 - 1)).foldl (fun g j =>
            (intRange (s1 - 1) (e1 - 1)).foldl (fun g i =>
              emitElement (quadRest gid
                (nodeIdVal p blkn i j 0) (nodeIdVal p blkn (i + 1) j 0)
                (nodeIdVal p blkn (i + 1) (j + 1) 0)
                (nodeIdVal p blkn i (j + 1) 0)) g) g) g, none)
        else if face = 2 then
          ((intRange (s2 - 1) (e2 - 1)).foldl (fun g j =>
            (intRange (s1 - 1) (e1 - 1)).foldl (fun g i =>
              emitElement (quadRest gid
                (nodeIdVal p blkn i j kmax) (nodeIdVal p blkn (i + 1) j kmax)
                (nodeIdVal p blkn (i + 1) (j + 1) kmax)
                (nodeIdVal p blkn i (j + 1) kmax)) g) g) g, none)
        else if face = 3 then
          ((intRange (s2 - 1) (e2 - 1)).foldl (fun g k =>
            (intRange (s1 - 1) (e1 - 1)).foldl (fun g j =>
              emitElement (quadRest gid
                (nodeIdVal p blkn 0 j k) (nodeIdVal p blkn 0 (j + 1) k)
                (nodeIdVal p blkn 0 (j + 1) (k + 1))
                (nodeIdVal p blkn 0 j (k + 1))) g) g) g, none)
        else if face = 4 then
          ((intRange (s2 - 1) (e2 - 1)).foldl (fun g k =>
            (intRange (s1 - 1) (e1 - 1)).foldl (fun g j =>
              emitElement (quadRest gid
                (nodeIdVal p blkn imax j k) (nodeIdVal p blkn imax (j + 1) k)
                (nodeIdVal p blkn imax (j + 1) (k + 1))
                (nodeIdVal p blkn imax j (k + 1))) g) g) g, none)
        else if face = 5 then
          ((intRange (s2 - 1) (e2 - 1)).foldl (fun g i =>
            (intRange (s1 - 1) (e1 - 1)).foldl (fun g k =>
              emitElement (quadRest gid
                (nodeIdVal p blkn i 0 k) (nodeIdVal p blkn (i + 1) 0 k)
                (nodeIdVal p blkn (i + 1) 0 (k + 1))
                (nodeIdVal p blkn i 0 (k + 1))) g) g) g, none)
        else if face = 6 then
          ((intRange (s2 - 1) (e2 - 1)).foldl (fun g i =>
            (intRange (s1 - 1) (e1 - 1)).foldl (fun g k =>
              emitElement (quadRest gid
                (nodeIdVal p blkn i jmax k) (nodeIdVal p blkn (i + 1) jmax k)
                (nodeIdVal p blkn (i + 1) jmax (k + 1))
                (nodeIdVal p blkn i jmax (k + 1))) g) g) g, none)
        else (g, some .invalidFace)
      | _ => (g, some .malformedRecord)
  | [] => (g, some .malformedRecord)

/-- The method `consume`: registers the volume group `(3, 1, 'mesh')`,
consumes every block in order, then generates every boundary record in
order.  A raise inside `_gen_boundary` aborts the remaining records; the
state reached at that point is kept, as it is in the Python object. -/
def consume (g : GmshFile) (p : P3D) (bdrys : List (List Char × List Int)) :
    GmshFile × Option GmshError :=
  let g := { g with groups := g.groups ++ [(3, 1, ['m', 'e', 's', 'h'])] }
  let g := (List.range p.length).foldl (fun g blkn => consume_block p blkn g) g
  bdrys.foldl (fun ge bdry =>
    match ge.2 with
    | some e => (ge.1, some e)
    | none => gen_boundary p bdry ge.1) (g, none)

/-- One whole conversion as `main` performs it: `consume` on a freshly
constructed `GmshFile()`. -/
def conversion (p : P3D) (bdrys : List (List Char × List Int)) :
    GmshFile × Option GmshError :=
  consume GmshFile.init p bdrys

/-- Helper of the Python `str.split()` model: accumulates the current
token (reversed) while scanning. -/
def tokensAux : List Char → List Char → List (List Char)
  | [], cur => if cur.isEmpty then [] else [cur.reverse]
  | c :: cs, cur =>
    if c.isWhitespace then
      if cur.isEmpty then tokensAux cs [] else cur.reverse :: tokensAux cs []
    else tokensAux cs (c :: cur)

/-- Python `str.split()` with no argument: maximal runs of
non-whitespace characters. -/
def pySplitWs (s : List Char) : List (List Char) := tokensAux s []

/-- Python `int(token)` on a split token (which contains no whitespace):
an optional minus sign followed by at least one decimal digit; anything
else raises `ValueError`, modelled as `none`. -/
def digitsToNat (s : List Char) : Option Nat :=
  if s = [] then none
  else s.foldl (fun acc? c => acc?.bind (fun acc =>
    if c.isDigit then some (acc * 10 + (c.toNat - 48)) else none)) (some 0)

/-- Python `int` over a possibly signed token. -/
def pyInt (s : List Char) : Option Int :=
  match s with
  | '-' :: rest => (digitsToNat rest).map (fun v => -(v : Int))
  | _ => (digitsToNat s).map (fun v => (v : Int))

/-- Python `b[0][1:-1]`: the label token with its first and last
characters removed. -/
def stripQuotes (s : List Char) : List Char := (s.drop 1).dropLast

/-- The connectivity marker label. -/
def oneToOne : List Char := ['o', 'n', 'e', '-', 't', 'o', '-', 'o', 'n', 'e']

/-- Tokenisation of one boundary line by `NeutralMapFile.__init__`:
`b = l[0:-2].split()` when the line (newline included, as `for l in fp`
yields it) ends with a backslash, else `b = l.split()`. -/
def lineTokens (l : List Char) : List (List Char) :=
  if l.getLast? = some '\\' then pySplitWs (l.dropLast.dropLast) else pySplitWs l

/-- The per-line record construction of `NeutralMapFile.__init__`: an
empty token list appends nothing; a label equal to the connectivity
marker is skipped; otherwise the record is the stripped label followed by
`map(int, b[1:7])`.  The outer `Option` is the `ValueError` of `int`,
the inner one distinguishes a skipped line from a produced record. -/
def parseRecord (tks : List (List Char)) : Option (Option (List Char × List Int)) :=
  match tks with
  | [] => some none
  | t0 :: rest =>
    if stripQuotes t0 = oneToOne then some none
    else match (rest.take 6).mapM pyInt with
      | none => none
      | some ns => some (some (stripQuotes t0, ns))

/-- The boundary-record loop of `NeutralMapFile.__init__` over the lines
that follow the headers: each line contributes at most one record to
`self.__boundaries`, in order; a `ValueError` aborts the whole load. -/
def parseBoundaries : List (List Char) → Option (List (List Char × List Int))
  | [] => some []
  | l :: ls => do
    let r? ← parseRecord (lineTokens l)
    let rest ← parseBoundaries ls
    pure (r?.toList ++ rest)

/-- The full per-file pipeline of `main` on already-split boundary lines:
load the neutral map file, then convert with a fresh `GmshFile`;
`none` when the load raises. -/
def conversionOfLines (p : P3D) (ls : List (List Char)) :
    Option (GmshFile × Option GmshError) :=
  (parseBoundaries ls).map fun bs => conversion p bs

/-- Element id of a stored element: its leading entry. -/
def elemId (e : Element) : Int := e.headD 0

/-- The contiguous integer interval `[s, s + len)` as a list. -/
def rangeList (s : Int) (len : Nat) : List Int :=
  (List.range len).map (fun (t : Nat) => s + (t : Int))

/-- All global node ids of block `n`, enumerated the way `_consume_block`
fills nodes (`i` outermost, `k` innermost). -/
def blockIds (p : P3D) (n : Nat) : List Int :=
  (intRange 0 ((p.getD n default).di : Int)).flatMap fun i =>
    (intRange 0 ((p.getD n default).dj : Int)).flatMap fun j =>
      (intRange 0 ((p.getD n default).dk : Int)).map fun k =>
        nodeIdVal p n i j k

/-- One of the three logical axes of a block. -/
inductive Axis where
  | first : Axis
  | second : Axis
  | third : Axis
deriving DecidableEq

/-- One row of the face table of the spec (§4.3): the fixed axis, whether
it is held at its maximum index, the two tangential axes in the order the
table lists them (which fixes the corner winding), and whether `range1`
sweeps the first listed tangential axis. -/
structure FaceRule where
  fixed : Axis
  atMax : Bool
  tangA : Axis
  tangB : Axis
  r1A : Bool
deriving DecidableEq

/-- Maximum index of a block along one axis. -/
def axisMax (b : Block) : Axis → Int
  | .first => (b.di : Int) - 1
  | .second => (b.dj : Int) - 1
  | .third => (b.dk : Int) - 1

/-- Coordinate along axis `a` of a face cell corner whose tangential
coordinates are `va` (on `tangA`) and `vb` (on `tangB`); the remaining,
fixed axis is held at `0` or at its maximum. -/
def placeAxis (r : FaceRule) (b : Block) (va vb : Int) (a : Axis) : Int :=
  if a = r.tangA then va
  else if a = r.tangB then vb
  else if r.atMax then axisMax b a else 0

/-- The `(i, j, k)` triple of one corner. -/
def ruleCorner (r : FaceRule) (b : Block) (va vb : Int) : Int × Int × Int :=
  (placeAxis r b va vb .first, placeAxis r b va vb .second,
   placeAxis r b va vb .third)

/-- Face table exactly as the claim states it (spec §4.3): for every face
the FIRST listed tangential axis is swept by `range1`. -/
def faceTableClaimed : Int → Option FaceRule
  | 1 => some ⟨.third, false, .first, .second, true⟩
  | 2 => some ⟨.third, true, .first, .second, true⟩
  | 3 => some ⟨.first, false, .second, .third, true⟩
  | 4 => some ⟨.first, true, .second, .third, true⟩
  | 5 => some ⟨.second, false, .first, .third, true⟩
  | 6 => some ⟨.second, true, .first, .third, true⟩
  | _ => none

/-- Face table as the code actually behaves: identical to the claimed
table except that for faces 5 and 6 `range1` sweeps the SECOND listed
tangential axis (the third logical axis, k) and `range2` the first (i). -/
def faceTableActual : Int → Option FaceRule
  | 1 => some ⟨.third, false, .first, .second, true⟩
  | 2 => some ⟨.third, true, .first, .second, true⟩
  | 3 => some ⟨.first, false, .second, .third, true⟩
  | 4 => some ⟨.first, true, .second, .third, true⟩
  | 5 => some ⟨.second, false, .first, .third, false⟩
  | 6 => some ⟨.second, true, .first, .third, false⟩
  | _ => none

/-- Face quads per the spec's words (§4.3): one quadrilateral per cell,
`range1` sweeping one tangential axis and `range2` the other as the table
row says, with corners `(a,b), (a+1,b), (a+1,b+1), (a,b+1)` on the two
listed tangential axes.  The spec fixes no emission order across cells;
the enumeration here nests `range2` outside `range1`, as the generator's
loops do. -/
def specFaceQuads (table : Int → Option FaceRule) (b : Block)
    (face s1 e1 s2 e2 : Int) : Option (List (List (Int × Int × Int))) :=
  (table face).map fun r =>
    (intRange (s2 - 1) (e2 - 1)).flatMap fun v2 =>
      (intRange (s1 - 1) (e1 - 1)).map fun v1 =>
        let va := if r.r1A then v1 else v2
        let vb := if r.r1A then v2 else v1
        [ruleCorner r b va vb, ruleCorner r b (va + 1) vb,
         ruleCorner r b (va + 1) (vb + 1), ruleCorner r b va (vb + 1)]

/-- The face quads of `specFaceQuads` mapped through the node indexer of
block `n`. -/
def specFaceQuadIds (table : Int → Option FaceRule) (p : P3D) (n : Int)
    (b : Block) (face s1 e1 s2 e2 : Int) : Option (List (List Int)) :=
  (specFaceQuads table b face s1 e1 s2 e2).map fun qs =>
    qs.map fun q => q.map fun c => nodeIdVal p n c.1 c.2.1 c.2.2

/-- Strip one trailing newline from a line, to read it as the spec's
notion of a record line. -/
def stripNl (l : List Char) : List Char :=
  if l.getLast? = some '\n' then l.dropLast else l

/-- Continuation joining per the spec's words (§6): a line ending with a
trailing backslash has the backslash removed and the following line
joined to it before parsing, possibly repeatedly. -/
def joinContinuations : List (List Char) → List (List Char)
  | [] => []
  | l :: ls =>
    let c := stripNl l
    if c.getLast? = some '\\' then
      match joinContinuations ls with
      | [] => [c.dropLast]
      | m :: ms => (c.dropLast ++ m) :: ms
    else c :: joinContinuations ls

/-- Record parsing of already-joined logical lines, using the same record
grammar as the loader but with no backslash handling left to do. -/
def parseLogicalLines : List (List Char) → Option (List (List Char × List Int))
  | [] => some []
  | l :: ls => do
    let r? ← parseRecord (pySplitWs l)
    let rest ← parseLogicalLines ls
    pure (r?.toList ++ rest)

/-- Boundary loading as the claim describes it: join backslash
continuations first, then parse each logical record line. -/
def specParseJoined (ls : List (List Char)) :
    Option (List (List Char × List Int)) :=
  parseLogicalLines (joinContinuations ls)

theorem intRange_natCast (n : Nat) :
    intRange 0 (n : Int) = (List.range n).map (fun (t : Nat) => (t : Int)) := by
  simp [intRange]

theorem pyIndex_natCast {α : Type} (l : List α) (n : Nat) :
    pyIndex l (n : Int) = l.get? n := by
  simp [pyIndex]

theorem pyIndex_lt {α : Type} (l : List α) (n : Nat) (hn : n < l.length) :
    pyIndex l (n : Int) = some (l.get ⟨n, hn⟩) := by
  rw [pyIndex_natCast, List.get?_eq_get hn]

theorem baseN_natCast (p : P3D) (n : Nat) (hn : n < p.length) :
    baseN p (n : Int) = 1 + (((p.take n).map blockSize).sum : Int) := by
  unfold baseN sizesBefore
  rcases Nat.lt_or_ge 1 p.length with h | h
  · simp [h]
  · have hlen : p.length = 1 := by omega
    have hn0 : n = 0 := by omega
    simp [hlen, hn0]

theorem nodeIdVal_eq (p : P3D) (n : Nat) (hn : n < p.length) (i j k : Int) :
    nodeIdVal p (n : Int) i j k =
      1 + (((p.take n).map blockSize).sum : Int) + localId (p.get ⟨n, hn⟩) i j k := by
  unfold nodeIdVal
  rw [baseN_natCast p n hn, pyIndex_lt p n hn]
  rfl

theorem rangeList_append (s : Int) (a b : Nat) :
    rangeList s a ++ rangeList (s + (a : Int)) b = rangeList s (a + b) := by
  simp only [rangeList, List.range_add, List.map_append, List.map_map]
  congr 1
  apply List.map_congr_left
  intro x _
  simp only [Function.comp]
  push_cast
  ring

theorem flatMap_rangeList (st : Int) (m : Nat) : ∀ (n : Nat),
    (List.range n).flatMap (fun (t : Nat) => rangeList (st + (m : Int) * (t : Int)) m) =
      rangeList st (n * m) := by
  intro n
  induction n with
  | zero => simp [rangeList]
  | succ n ih =>
    rw [List.range_succ, List.flatMap_append]
    simp only [List.flatMap_cons, List.flatMap_nil, List.append_nil]
    rw [ih]
    have h1 : st + (m : Int) * (n : Int) = st + ((n * m : Nat) : Int) := by
      push_cast; ring
    rw [h1, rangeList_append]
    congr 1
    ring

theorem foldl_foldl_flatMap {α β γ : Type} (f : β → α → β) (g : γ → List α)
    (l : List γ) (init : β) :
    l.foldl (fun acc c => (g c).foldl f acc) init = (l.flatMap g).foldl f init := by
  induction l generalizing init with
  | nil => rfl
  | cons a t ih => simp [List.flatMap_cons, List.foldl_append, ih]

theorem foldl_emit {α : Type} (rest : α → List Int) (l : List α) (g : GmshFile) :
    l.foldl (fun g a => emitElement (rest a) g) g =
      { g with element_id := g.element_id + l.length,
               elements := g.elements ++
                 (l.zip (List.range' (g.element_id + 1) l.length)).map
                   (fun ai => ((ai.2 : Int)) :: rest ai.1) } := by
  induction l generalizing g with
  | nil => simp
  | cons a t ih =>
    rw [List.foldl_cons, ih]
    simp only [emitElement, get_next_element_id, List.length_cons, List.range'_succ,
      List.zip_cons_cons, List.map_cons, List.append_assoc, List.singleton_append]
    have h : g.element_id + 1 + t.length = g.element_id + (t.length + 1) := by omega
    rw [h]

/-- C1: for every block index `n < nblocks` and every in-bounds logical
triple `(i, j, k)` of block `n`, the node indexer returns
`1 + (sum of di*dj*dk over blocks 0..n-1) + k + dk*j + dk*dj*i`, the
extents of the local term being those of block `n`. -/
theorem p3d_node_id_formula (p : P3D) (n i j k : Nat) (hn : n < p.length)
    (hi : i < (p.get ⟨n, hn⟩).di) (hj : j < (p.get ⟨n, hn⟩).dj)
    (hk : k < (p.get ⟨n, hn⟩).dk) :
    p3d_node_id p (n : Int) (i : Int) (j : Int) (k : Int) =
      .ok (1 + (((p.take n).map blockSize).sum : Int) + (k : Int)
        + ((p.get ⟨n, hn⟩).dk : Int) * (j : Int)
        + ((p.get ⟨n, hn⟩).dk : Int) * ((p.get ⟨n, hn⟩).dj : Int) * (i : Int)) := by
  unfold p3d_node_id
  rw [pyIndex_lt p n hn]
  have hlt : ¬ ((p.length : Int) ≤ (n : Int)) := by omega
  simp only [hlt, if_false]
  rw [nodeIdVal_eq p n hn]
  unfold localId
  congr 1
  ring

/-- Witness for C1 on a concrete two-block grid. -/
theorem p3d_node_id_formula_witness :
    (1 : Nat) < ([⟨2, 3, 4, fun _ _ _ => 0, fun _ _ _ => 0, fun _ _ _ => 0⟩,
      ⟨3, 2, 2, fun _ _ _ => 5, fun _ _ _ => 6, fun _ _ _ => 7⟩] : P3D).length ∧
    p3d_node_id [⟨2, 3, 4, fun _ _ _ => 0, fun _ _ _ => 0, fun _ _ _ => 0⟩,
      ⟨3, 2, 2, fun _ _ _ => 5, fun _ _ _ => 6, fun _ _ _ => 7⟩] 1 2 1 1 =
      .ok (1 + 24 + 1 + 2 * 1 + 2 * 2 * 2) := by
  refine ⟨by decide, ?_⟩
  have h := p3d_node_id_formula [⟨2, 3, 4, fun _ _ _ => 0, fun _ _ _ => 0, fun _ _ _ => 0⟩,
      ⟨3, 2, 2, fun _ _ _ => 5, fun _ _ _ => 6, fun _ _ _ => 7⟩] 1 2 1 1
    (by decide) (by decide) (by decide) (by decide)
  simpa using h

theorem getD_eq_get {α : Type} [Inhabited α] (l : List α) (n : Nat) (h : n < l.length) :
    l.getD n default = l.get ⟨n, h⟩ := by
  simp [List.getD, List.getElem?_eq_getElem h]

theorem mem_rangeList (s : Int) (len : Nat) (a : Int) :
    a ∈ rangeList s len ↔ s ≤ a ∧ a < s + len := by
  simp only [rangeList, List.mem_map, List.mem_range]
  constructor
  · rintro ⟨t, ht, rfl⟩; omega
  · rintro ⟨h1, h2⟩
    refine ⟨(a - s).toNat, by omega, by omega⟩

theorem rangeList_nodup (s : Int) (len : Nat) : (rangeList s len).Nodup := by
  refine List.Nodup.map ?_ (List.nodup_range len)
  intro a b h
  simp only [add_right_inj, Nat.cast_inj] at h
  exact h

theorem rangeList_length (s : Int) (len : Nat) : (rangeList s len).length = len := by
  simp [rangeList]

theorem sizesSum_mono (p : P3D) (n m : Nat) (h : n ≤ m) :
    ((p.take n).map blockSize).sum ≤ ((p.take m).map blockSize).sum := by
  have hm : m = n + (m - n) := by omega
  rw [hm, List.take_add, List.map_append, List.sum_append]
  omega

theorem sizesSum_succ (p : P3D) (n : Nat) (hn : n < p.length) :
    ((p.take (n + 1)).map blockSize).sum =
      ((p.take n).map blockSize).sum + blockSize (p.get ⟨n, hn⟩) := by
  rw [List.take_succ, List.map_append, List.sum_append]
  simp [List.getElem?_eq_getElem hn]

theorem blockIds_eq_rangeList (p : P3D) (n : Nat) (hn : n < p.length) :
    blockIds p n =
      rangeList (1 + (((p.take n).map blockSize).sum : Int))
        (blockSize (p.get ⟨n, hn⟩)) := by
  unfold blockIds
  rw [getD_eq_get p n hn]
  set b := p.get ⟨n, hn⟩ with hb
  set C : Int := 1 + (((p.take n).map blockSize).sum : Int) with hC
  have hval : ∀ i j k : Int, nodeIdVal p (n : Int) i j k = C + localId b i j k := by
    intro i j k
    rw [nodeIdVal_eq p n hn]
  have hinner : ∀ i j : Int,
      (intRange 0 (b.dk : Int)).map (fun k => nodeIdVal p (n : Int) i j k) =
        rangeList (C + (b.dk : Int) * j + (b.dk : Int) * (b.dj : Int) * i) b.dk := by
    intro i j
    rw [intRange_natCast, List.map_map, rangeList]
    apply List.map_congr_left
    intro t _
    simp only [Function.comp]
    rw [hval]
    unfold localId
    ring
  have hmiddle : ∀ i : Int,
      (intRange 0 (b.dj : Int)).flatMap (fun j =>
        (intRange 0 (b.dk : Int)).map (fun k => nodeIdVal p (n : Int) i j k)) =
        rangeList (C + (b.dk : Int) * (b.dj : Int) * i) (b.dj * b.dk) := by
    intro i
    rw [intRange_natCast, List.flatMap_map]
    refine Eq.trans (List.flatMap_congr ?_)
      (flatMap_rangeList (C + (b.dk : Int) * (b.dj : Int) * i) b.dk b.dj)
    intro t _
    rw [hinner]
    congr 1
    ring
  have houter :
      (intRange 0 (b.di : Int)).flatMap (fun i =>
        (intRange 0 (b.dj : Int)).flatMap (fun j =>
          (intRange 0 (b.dk : Int)).map (fun k => nodeIdVal p (n : Int) i j k))) =
        rangeList C (b.di * (b.dj * b.dk)) := by
    rw [intRange_natCast, List.flatMap_map]
    refine Eq.trans (List.flatMap_congr ?_)
      (flatMap_rangeList C (b.dj * b.dk) b.di)
    intro t _
    rw [hmiddle]
    congr 1
    push_cast
    ring
  rw [houter]
  congr 1
  unfold blockSize
  rw [Nat.mul_assoc]

/-- C2: the node ids of block `n` are exactly the contiguous interval
that starts one past the ids of blocks `0..n-1`: `blockSize` many of
them, pairwise distinct, and disjoint from every other block's ids. -/
theorem node_ids_block_contiguous (p : P3D) (n : Nat) (hn : n < p.length) :
    (blockIds p n).length = blockSize (p.get ⟨n, hn⟩) ∧
    (blockIds p n).Nodup ∧
    blockIds p n = rangeList (1 + (((p.take n).map blockSize).sum : Int))
      (blockSize (p.get ⟨n, hn⟩)) ∧
    ∀ m < p.length, m ≠ n → ∀ a ∈ blockIds p n, a ∉ blockIds p m := by
  have h1 := blockIds_eq_rangeList p n hn
  refine ⟨by rw [h1, rangeList_length], by rw [h1]; exact rangeList_nodup _ _, h1, ?_⟩
  intro m hm hmn a han ham
  rw [blockIds_eq_rangeList p m hm, mem_rangeList] at ham
  rw [h1, mem_rangeList] at han
  rcases Nat.lt_or_ge m n with h | h
  · have hstep := sizesSum_succ p m hm
    have hmono := sizesSum_mono p (m + 1) n (by omega)
    omega
  · have hnm : n < m := by omega
    have hstep := sizesSum_succ p n hn
    have hmono := sizesSum_mono p (n + 1) m (by omega)
    omega

/-- Concrete blocks shared by several witnesses. -/
def blkA : Block := ⟨2, 3, 4, fun _ _ _ => 0, fun _ _ _ => 0, fun _ _ _ => 0⟩

/-- A second concrete block. -/
def blkB : Block := ⟨3, 2, 2, fun _ _ _ => 5, fun _ _ _ => 6, fun _ _ _ => 7⟩

/-- A concrete two-block grid shared by several witnesses. -/
def pEx : P3D := [blkA, blkB]

/-- Witness for C2 on the concrete two-block grid, at block 1. -/
theorem node_ids_block_contiguous_witness :
    (1 : Nat) < pEx.length ∧
    ((blockIds pEx 1).length = blockSize (pEx.get ⟨1, by decide⟩) ∧
     (blockIds pEx 1).Nodup ∧
     blockIds pEx 1 = rangeList (1 + (((pEx.take 1).map blockSize).sum : Int))
       (blockSize (pEx.get ⟨1, by decide⟩)) ∧
     ∀ m < pEx.length, m ≠ 1 → ∀ a ∈ blockIds pEx 1, a ∉ blockIds pEx m) :=
  ⟨by decide, node_ids_block_contiguous pEx 1 (by decide)⟩

theorem foldl_emit2 {α β : Type} (rest : α → β → List Int) (lo : List α)
    (li : List β) (g : GmshFile) :
    lo.foldl (fun g a => li.foldl (fun g b => emitElement (rest a b) g) g) g =
      (lo.flatMap fun a => li.map fun b => (a, b)).foldl
        (fun g c => emitElement (rest c.1 c.2) g) g := by
  have hstep : (fun (g : GmshFile) (a : α) =>
        li.foldl (fun g b => emitElement (rest a b) g) g) =
      (fun (g : GmshFile) (a : α) => ((li.map fun b => (a, b)).foldl
        (fun g c => emitElement (rest c.1 c.2) g) g)) := by
    funext g a
    rw [List.foldl_map]
  rw [hstep, foldl_foldl_flatMap]

/-- The `(j, k)` cell enumeration of the element loops of
`_consume_block`: `j in xrange(1, jdim)` outside, `k in xrange(1, kdim)`
inside. -/
def hexCells (b : Block) : List (Int × Int) :=
  (intRange 1 (b.dj : Int)).flatMap fun j =>
    (intRange 1 (b.dk : Int)).map fun k => (j, k)

theorem intRange_length (a b : Int) : (intRange a b).length = (b - a).toNat := by
  simp [intRange]

theorem hexCells_length (b : Block) :
    (hexCells b).length = (b.dj - 1) * (b.dk - 1) := by
  unfold hexCells
  rw [List.length_flatMap]
  have hconst : List.map (List.length ∘ fun j =>
      (intRange 1 (b.dk : Int)).map fun k => (j, k)) (intRange 1 (b.dj : Int)) =
      List.map (fun _ => b.dk - 1) (intRange 1 (b.dj : Int)) := by
    apply List.map_congr_left
    intro j _
    simp only [Function.comp, List.length_map, intRange_length]
    omega
  rw [hconst, List.map_const', List.sum_replicate, smul_eq_mul, intRange_length]
  congr 1
  omega

theorem consume_block_eq (p : P3D) (blkn : Nat) (g : GmshFile) :
    consume_block p blkn g =
      { element_id := g.element_id + (hexCells (p.getD blkn default)).length,
        nodes := g.nodes ++ blockNodes p blkn (p.getD blkn default),
        elements := g.elements ++
          ((hexCells (p.getD blkn default)).zip
            (List.range' (g.element_id + 1) (hexCells (p.getD blkn default)).length)).map
            (fun ci => ((ci.2 : Nat) : Int) :: hexRest p blkn ci.1.1 ci.1.2),
        groups := g.groups } := by
  simp only [consume_block, hexCells]
  rw [foldl_emit2, foldl_emit]

theorem map_zip_fst {α β γ : Type} (f : α → γ) (l : List α) (r : List β)
    (h : l.length ≤ r.length) :
    (l.zip r).map (fun ci => f ci.1) = l.map f := by
  have hc : (fun ci : α × β => f ci.1) = f ∘ Prod.fst := rfl
  rw [hc, ← List.map_map, List.map_fst_zip l r h]

/-- C3: the volume element generator emits exactly `(J-1)*(K-1)`
hexahedra for a block with extents `(I, J, K)` — one per `(j, k)` with
`j in [1, J)`, `k in [1, K)` — whose eight corner node ids are, in order,
the indexer ids of `(0,j-1,k-1), (0,j,k-1), (0,j,k), (0,j-1,k),
(1,j-1,k-1), (1,j,k-1), (1,j,k), (1,j-1,k)`; the first logical axis never
advances beyond indices 0 and 1. -/
theorem consume_block_hexes (p : P3D) (blkn : Nat) (hb : blkn < p.length)
    (g : GmshFile) :
    ((consume_block p blkn g).elements.drop g.elements.length).map
        (fun e => e.drop 5) =
      (hexCells (p.get ⟨blkn, hb⟩)).map (fun c =>
        [nodeIdVal p (blkn : Int) 0 (c.1 - 1) (c.2 - 1),
         nodeIdVal p (blkn : Int) 0 c.1 (c.2 - 1),
         nodeIdVal p (blkn : Int) 0 c.1 c.2,
         nodeIdVal p (blkn : Int) 0 (c.1 - 1) c.2,
         nodeIdVal p (blkn : Int) 1 (c.1 - 1) (c.2 - 1),
         nodeIdVal p (blkn : Int) 1 c.1 (c.2 - 1),
         nodeIdVal p (blkn : Int) 1 c.1 c.2,
         nodeIdVal p (blkn : Int) 1 (c.1 - 1) c.2]) ∧
    (consume_block p blkn g).elements.length =
      g.elements.length +
        ((p.get ⟨blkn, hb⟩).dj - 1) * ((p.get ⟨blkn, hb⟩).dk - 1) := by
  have heq := consume_block_eq p blkn g
  rw [getD_eq_get p blkn hb] at heq
  constructor
  · rw [heq]
    simp only [List.drop_left, List.map_map]
    rw [show ((fun e : List Int => e.drop 5) ∘
        (fun ci : (Int × Int) × Nat => ((ci.2 : Nat) : Int) ::
          hexRest p blkn ci.1.1 ci.1.2)) =
        (fun ci : (Int × Int) × Nat =>
          (fun c : Int × Int => shifts.map fun s =>
            nodeIdVal p (blkn : Int) s.1 (c.1 + s.2.1) (c.2 + s.2.2)) ci.1) from by
      funext ci
      simp [hexRest]]
    rw [map_zip_fst (fun c : Int × Int => shifts.map fun s =>
          nodeIdVal p (blkn : Int) s.1 (c.1 + s.2.1) (c.2 + s.2.2))
        (hexCells (p.get ⟨blkn, hb⟩))
        (List.range' (g.element_id + 1) (hexCells (p.get ⟨blkn, hb⟩)).length)
        (by simp)]
    apply List.map_congr_left
    intro c _
    simp [shifts, sub_eq_add_neg]
  · rw [heq]
    simp [hexCells_length]

/-- Witness for C3 on block 1 of the concrete grid (extents `(3, 2, 2)`,
hence exactly one hexahedron). -/
theorem consume_block_hexes_witness :
    (1 : Nat) < pEx.length ∧
    (((consume_block pEx 1 GmshFile.init).elements.drop
          GmshFile.init.elements.length).map (fun e => e.drop 5) =
      (hexCells (pEx.get ⟨1, by decide⟩)).map (fun c =>
        [nodeIdVal pEx (1 : Int) 0 (c.1 - 1) (c.2 - 1),
         nodeIdVal pEx (1 : Int) 0 c.1 (c.2 - 1),
         nodeIdVal pEx (1 : Int) 0 c.1 c.2,
         nodeIdVal pEx (1 : Int) 0 (c.1 - 1) c.2,
         nodeIdVal pEx (1 : Int) 1 (c.1 - 1) (c.2 - 1),
         nodeIdVal pEx (1 : Int) 1 c.1 (c.2 - 1),
         nodeIdVal pEx (1 : Int) 1 c.1 c.2,
         nodeIdVal pEx (1 : Int) 1 (c.1 - 1) c.2]) ∧
      (consume_block pEx 1 GmshFile.init).elements.length =
        GmshFile.init.elements.length +
          ((pEx.get ⟨1, by decide⟩).dj - 1) * ((pEx.get ⟨1, by decide⟩).dk - 1)) :=
  ⟨by decide, consume_block_hexes pEx 1 (by decide) GmshFile.init⟩

/-- Invariant behind C5: the stored element ids are exactly
`1, 2, ..., len` in list order, and the counter equals the element
count. -/
def idsOk (g : GmshFile) : Prop :=
  g.elements.map elemId = rangeList 1 g.elements.length ∧
  g.element_id = g.elements.length

theorem rangeList_concat (s : Int) (len : Nat) :
    rangeList s len ++ [s + (len : Int)] = rangeList s (len + 1) := by
  have h := rangeList_append s len 1
  rw [show rangeList (s + (len : Int)) 1 = [s + (len : Int)] from by
    simp [rangeList, List.range_succ]] at h
  exact h

theorem idsOk_emit (rest : List Int) (g : GmshFile) (h : idsOk g) :
    idsOk (emitElement rest g) := by
  obtain ⟨h1, h2⟩ := h
  have hmap : (emitElement rest g).elements.map elemId =
      rangeList 1 g.elements.length ++ [1 + (g.elements.length : Int)] := by
    simp only [emitElement, get_next_element_id, List.map_append, List.map_cons,
      List.map_nil, h1]
    congr 2
    simp only [elemId, List.headD_cons, h2]
    push_cast
    ring
  have hlen : (emitElement rest g).elements.length = g.elements.length + 1 := by
    simp [emitElement, get_next_element_id]
  constructor
  · rw [hmap, rangeList_concat, hlen]
  · simp [emitElement, get_next_element_id, h2]

theorem idsOk_foldl_emit {α : Type} (rest : α → List Int) (l : List α)
    (g : GmshFile) (h : idsOk g) :
    idsOk (l.foldl (fun g a => emitElement (rest a) g) g) := by
  induction l generalizing g with
  | nil => exact h
  | cons a t ih => exact ih _ (idsOk_emit _ _ h)

theorem idsOk_consume_block (p : P3D) (blkn : Nat) (g : GmshFile)
    (h : idsOk g) : idsOk (consume_block p blkn g) := by
  simp only [consume_block]
  rw [foldl_emit2]
  exact idsOk_foldl_emit _ _ _ h

/-- Invariant behind C6: the stored group ids are exactly `1, ..., len`
in list order. -/
def groupsOk (gs : List PhysGroup) : Prop :=
  gs.map (fun t => t.2.1) = List.range' 1 gs.length

theorem foldl_max_range_one (len : Nat) : (List.range' 1 len).foldl max 0 = len := by
  induction len with
  | zero => rfl
  | succ n ih =>
    rw [List.range'_concat, List.foldl_append, ih]
    simp [Nat.max_def]
    omega

theorem next_group_id_of_groupsOk (g : GmshFile) (h : groupsOk g.groups) :
    next_group_id g = g.groups.length + 1 := by
  unfold next_group_id
  unfold groupsOk at h
  rw [h, foldl_max_range_one]

theorem groupsOk_append_one (gs : List PhysGroup) (d : Nat) (nm : List Char)
    (h : groupsOk gs) :
    groupsOk (gs ++ [(d, gs.length + 1, nm)]) := by
  unfold groupsOk at h ⊢
  simp only [List.map_append, List.map_cons, List.map_nil, List.length_append,
    List.length_cons, List.length_nil, h]
  rw [show ([gs.length + 1] : List Nat) = [1 + 1 * gs.length] from by
    congr 1; omega]
  rw [← List.range'_concat]

theorem foldl_emit_groups {α : Type} (rest : α → List Int) (l : List α)
    (g : GmshFile) :
    (l.foldl (fun g a => emitElement (rest a) g) g).groups = g.groups := by
  rw [foldl_emit]

theorem foldl_emit_nodes {α : Type} (rest : α → List Int) (l : List α)
    (g : GmshFile) :
    (l.foldl (fun g a => emitElement (rest a) g) g).nodes = g.nodes := by
  rw [foldl_emit]

theorem foldl_emit_elements_ext {α : Type} (rest : α → List Int) (l : List α)
    (g : GmshFile) :
    ∃ ext, (l.foldl (fun g a => emitElement (rest a) g) g).elements =
      g.elements ++ ext :=
  ⟨_, by rw [foldl_emit]⟩

theorem consume_block_groups (p : P3D) (blkn : Nat) (g : GmshFile) :
    (consume_block p blkn g).groups = g.groups := by
  rw [consume_block_eq]

theorem consume_block_elements_ext (p : P3D) (blkn : Nat) (g : GmshFile) :
    ∃ ext, (consume_block p blkn g).elements = g.elements ++ ext :=
  ⟨_, by rw [consume_block_eq]⟩

theorem gen_boundary_state (p : P3D) (bdry : List Char × List Int) (g : GmshFile) :
    (gen_boundary p bdry g).1.groups =
      g.groups ++ [(2, next_group_id g,
        'b' :: Nat.toDigits 10 (next_group_id g) ++ '-' :: bdry.1)] ∧
    (gen_boundary p bdry g).1.nodes = g.nodes ∧
    (∃ ext, (gen_boundary p bdry g).1.elements = g.elements ++ ext) ∧
    (idsOk g → idsOk (gen_boundary p bdry g).1) := by
  simp only [gen_boundary]
  split
  · split
    · exact ⟨rfl, rfl, ⟨[], by simp⟩, fun h => h⟩
    · split
      · split_ifs
        all_goals first
          | exact ⟨rfl, rfl, ⟨[], by simp⟩, fun h => h⟩
          | (rw [foldl_emit2]
             exact ⟨foldl_emit_groups _ _ _, foldl_emit_nodes _ _ _,
               foldl_emit_elements_ext _ _ _, fun h => idsOk_foldl_emit _ _ _ h⟩)
      · exact ⟨rfl, rfl, ⟨[], by simp⟩, fun h => h⟩
  · exact ⟨rfl, rfl, ⟨[], by simp⟩, fun h => h⟩

theorem foldl_preserve {α β : Type} (P : β → Prop) (f : β → α → β)
    (l : List α) (hf : ∀ b a, P b → P (f b a)) :
    ∀ b, P b → P (l.foldl f b) := by
  induction l with
  | nil => intro b h; exact h
  | cons a t ih => intro b h; exact ih _ (hf b a h)

/-- State of one conversion after its volume phase: fresh `GmshFile`,
volume group registered, every block consumed, no boundary record yet. -/
def volumeState (p : P3D) : GmshFile :=
  (List.range p.length).foldl (fun g blkn => consume_block p blkn g)
    { GmshFile.init with groups :=
        GmshFile.init.groups ++ [(3, 1, ['m', 'e', 's', 'h'])] }

theorem conversion_eq (p : P3D) (bdrys : List (List Char × List Int)) :
    conversion p bdrys = bdrys.foldl (fun ge bdry =>
      match ge.2 with
      | some e => (ge.1, some e)
      | none => gen_boundary p bdry ge.1) (volumeState p, none) := rfl

theorem idsOk_volumeState (p : P3D) : idsOk (volumeState p) := by
  unfold volumeState
  exact foldl_preserve idsOk _ _ (fun g a h => idsOk_consume_block p a g h) _ ⟨rfl, rfl⟩

/-- C5: across one whole conversion the stored element ids are exactly
`1, 2, ..., N` in generation order, and all volume elements (emitted in
block order during the volume phase) precede every boundary element. -/
theorem element_ids_gap_free (p : P3D) (bdrys : List (List Char × List Int)) :
    (conversion p bdrys).1.elements.map elemId =
      rangeList 1 (conversion p bdrys).1.elements.length ∧
    (conversion p bdrys).1.elements.take (volumeState p).elements.length =
      (volumeState p).elements := by
  have hids : idsOk (conversion p bdrys).1 := by
    rw [conversion_eq]
    refine foldl_preserve (fun ge : GmshFile × Option GmshError => idsOk ge.1)
      _ _ ?_ _ (idsOk_volumeState p)
    intro ge bdry h
    match he : ge.2 with
    | some e => exact h
    | none => exact (gen_boundary_state p bdry ge.1).2.2.2 h
  have hext : ∃ ext, (conversion p bdrys).1.elements =
      (volumeState p).elements ++ ext := by
    rw [conversion_eq]
    refine foldl_preserve
      (fun ge : GmshFile × Option GmshError =>
        ∃ ext, ge.1.elements = (volumeState p).elements ++ ext) _ _ ?_ _
      ⟨[], by simp⟩
    intro ge bdry h
    obtain ⟨ext, hx⟩ := h
    match he : ge.2 with
    | some e => exact ⟨ext, hx⟩
    | none =>
      obtain ⟨ext2, hx2⟩ := (gen_boundary_state p bdry ge.1).2.2.1
      exact ⟨ext ++ ext2, by rw [hx2, hx, List.append_assoc]⟩
  refine ⟨hids.1, ?_⟩
  obtain ⟨ext, hx⟩ := hext
  rw [hx, List.take_left]

/-- Combined group invariant for C6: ids are `1..len` in order, the head
group is the volume group, and it is the only 3-dimensional group. -/
def groupsInv (g : GmshFile) : Prop :=
  groupsOk g.groups ∧
  g.groups.head? = some (3, 1, ['m', 'e', 's', 'h']) ∧
  g.groups.filter (fun t => t.1 == 3) = [(3, 1, ['m', 'e', 's', 'h'])]

theorem groupsInv_gen_boundary (p : P3D) (bdry : List Char × List Int)
    (g : GmshFile) (h : groupsInv g) : groupsInv (gen_boundary p bdry g).1 := by
  obtain ⟨h1, h2, h3⟩ := h
  have hg := (gen_boundary_state p bdry g).1
  rw [next_group_id_of_groupsOk g h1] at hg
  refine ⟨?_, ?_, ?_⟩
  · rw [hg]
    exact groupsOk_append_one _ 2 _ h1
  · rw [hg]
    cases hgs : g.groups with
    | nil => rw [hgs] at h2; simp at h2
    | cons a tl =>
      rw [hgs] at h2
      simpa using h2
  · rw [hg, List.filter_append, h3]
    simp

/-- C6: in every conversion the volume group `(3, 1, "mesh")` is
registered first, the group ids are exactly `1, 2, ..., len` in
allocation order (so each new id is strictly greater than all previous
ones and the volume group has the smallest), and the volume group is the
only 3-dimensional group. -/
theorem group_ids_dense_ascending (p : P3D) (bdrys : List (List Char × List Int)) :
    (conversion p bdrys).1.groups.head? = some (3, 1, ['m', 'e', 's', 'h']) ∧
    (conversion p bdrys).1.groups.map (fun t => t.2.1) =
      List.range' 1 (conversion p bdrys).1.groups.length ∧
    (conversion p bdrys).1.groups.filter (fun t => t.1 == 3) =
      [(3, 1, ['m', 'e', 's', 'h'])] := by
  have hinv : groupsInv (conversion p bdrys).1 := by
    rw [conversion_eq]
    refine foldl_preserve (fun ge : GmshFile × Option GmshError => groupsInv ge.1)
      _ _ ?_ _ ?_
    · intro ge bdry h
      match ge.2 with
      | some e => exact h
      | none => exact groupsInv_gen_boundary p bdry ge.1 h
    · unfold volumeState
      refine foldl_preserve groupsInv _ _ ?_ _ ?_
      · intro g a h
        unfold groupsInv at h ⊢
        rw [consume_block_groups]
        exact h
      · exact ⟨rfl, rfl, rfl⟩
  exact ⟨hinv.2.1, hinv.1, hinv.2.2⟩

/-- C7: on a well-formed boundary record whose block resolves, a face id
outside `{1..6}` makes `_gen_boundary` raise the invalid-face
`ValueError`, and a face id inside `{1..6}` never raises it. -/
theorem gen_boundary_face_validation (p : P3D) (label : List Char)
    (blk face s1 e1 s2 e2 : Int) (g : GmshFile) (b : Block)
    (hb : pyIndex p (blk - 1) = some b) :
    ((face < 1 ∨ 6 < face) →
      (gen_boundary p (label, [blk, face, s1, e1, s2, e2]) g).2 =
        some .invalidFace) ∧
    (1 ≤ face → face ≤ 6 →
      (gen_boundary p (label, [blk, face, s1, e1, s2, e2]) g).2 ≠
        some .invalidFace) := by
  constructor
  · intro hface
    have hf1 : ¬ face = 1 := by omega
    have hf2 : ¬ face = 2 := by omega
    have hf3 : ¬ face = 3 := by omega
    have hf4 : ¬ face = 4 := by omega
    have hf5 : ¬ face = 5 := by omega
    have hf6 : ¬ face = 6 := by omega
    simp [gen_boundary, hb, hf1, hf2, hf3, hf4, hf5, hf6]
  · intro hlo hhi
    interval_cases face <;> simp [gen_boundary, hb]

/-- Witness for C7 on the concrete grid, block 1, at face id 7. -/
theorem gen_boundary_face_validation_witness :
    pyIndex pEx ((1 : Int) - 1) = some blkA ∧
    ((((7 : Int) < 1 ∨ 6 < (7 : Int)) →
      (gen_boundary pEx (['w'], [1, 7, 1, 2, 1, 2]) GmshFile.init).2 =
        some .invalidFace) ∧
     (1 ≤ (7 : Int) → (7 : Int) ≤ 6 →
      (gen_boundary pEx (['w'], [1, 7, 1, 2, 1, 2]) GmshFile.init).2 ≠
        some .invalidFace)) :=
  ⟨rfl, gen_boundary_face_validation pEx ['w'] 1 7 1 2 1 2 GmshFile.init blkA rfl⟩

/-- C10: when `_gen_boundary` raises the invalid-face error, the new
physical group for the record has already been appended; the state is not
rolled back (no elements are added, though). -/
theorem invalid_face_after_group_alloc (p : P3D) (label : List Char)
    (blk face s1 e1 s2 e2 : Int) (g : GmshFile) (b : Block)
    (hb : pyIndex p (blk - 1) = some b) (hface : face < 1 ∨ 6 < face) :
    (gen_boundary p (label, [blk, face, s1, e1, s2, e2]) g).2 =
      some .invalidFace ∧
    (gen_boundary p (label, [blk, face, s1, e1, s2, e2]) g).1.groups =
      g.groups ++ [(2, next_group_id g,
        'b' :: Nat.toDigits 10 (next_group_id g) ++ '-' :: label)] ∧
    (gen_boundary p (label, [blk, face, s1, e1, s2, e2]) g).1.elements =
      g.elements := by
  have hf1 : ¬ face = 1 := by omega
  have hf2 : ¬ face = 2 := by omega
  have hf3 : ¬ face = 3 := by omega
  have hf4 : ¬ face = 4 := by omega
  have hf5 : ¬ face = 5 := by omega
  have hf6 : ¬ face = 6 := by omega
  refine ⟨?_, (gen_boundary_state p _ g).1, ?_⟩
  · simp [gen_boundary, hb, hf1, hf2, hf3, hf4, hf5, hf6]
  · simp [gen_boundary, hb, hf1, hf2, hf3, hf4, hf5, hf6]

/-- Witness for C10 on the concrete grid, block 1, at face id 0. -/
theorem invalid_face_after_group_alloc_witness :
    pyIndex pEx ((1 : Int) - 1) = some blkA ∧
    ((0 : Int) < 1 ∨ 6 < (0 : Int)) ∧
    ((gen_boundary pEx (['w'], [1, 0, 1, 2, 1, 2]) GmshFile.init).2 =
      some .invalidFace ∧
     (gen_boundary pEx (['w'], [1, 0, 1, 2, 1, 2]) GmshFile.init).1.groups =
      GmshFile.init.groups ++ [(2, next_group_id GmshFile.init,
        'b' :: Nat.toDigits 10 (next_group_id GmshFile.init) ++ '-' :: ['w'])] ∧
     (gen_boundary pEx (['w'], [1, 0, 1, 2, 1, 2]) GmshFile.init).1.elements =
      GmshFile.init.elements) :=
  ⟨rfl, Or.inl (by decide),
    invalid_face_after_group_alloc pEx ['w'] 1 0 1 2 1 2 GmshFile.init blkA rfl
      (Or.inl (by decide))⟩

theorem foldl_emit2_quads {α β : Type} (rest : α → β → List Int) (lo : List α)
    (li : List β) (g : GmshFile) :
    ((lo.foldl (fun g a => li.foldl (fun g b => emitElement (rest a b) g) g)
        g).elements.drop g.elements.length).map (fun e => e.drop 5) =
      lo.flatMap (fun a => li.map (fun b => (rest a b).drop 4)) := by
  rw [foldl_emit2, foldl_emit]
  simp only [List.drop_left, List.map_map]
  rw [show ((fun e : List Int => e.drop 5) ∘
      (fun ci : (α × β) × Nat => ((ci.2 : Nat) : Int) :: rest ci.1.1 ci.1.2)) =
      (fun ci : (α × β) × Nat =>
        (fun c : α × β => (rest c.1 c.2).drop 4) ci.1) from by
    funext ci
    simp]
  rw [map_zip_fst (fun c : α × β => (rest c.1 c.2).drop 4) _ _ (by simp)]
  rw [List.map_flatMap]
  apply List.flatMap_congr
  intro a _
  rw [List.map_map]
  apply List.map_congr_left
  intro b _
  rfl

theorem foldl_emit2_elements {α β : Type} (rest : α → β → List Int) (lo : List α)
    (li : List β) (g : GmshFile) :
    (lo.foldl (fun g a => li.foldl (fun g b => emitElement (rest a b) g) g)
        g).elements =
      g.elements ++ ((lo.flatMap fun a => li.map fun b => (a, b)).zip
        (List.range' (g.element_id + 1)
          (lo.flatMap fun a => li.map fun b => (a, b)).length)).map
        (fun ci => ((ci.2 : Nat) : Int) :: rest ci.1.1 ci.1.2) := by
  rw [foldl_emit2, foldl_emit]

theorem map_drop5_emitted {α β : Type} (rest : α → β → List Int) (lo : List α)
    (li : List β) (eid : Nat) :
    (((lo.flatMap fun a => li.map fun b => (a, b)).zip
        (List.range' (eid + 1)
          (lo.flatMap fun a => li.map fun b => (a, b)).length)).map
        (fun ci => ((ci.2 : Nat) : Int) :: rest ci.1.1 ci.1.2)).map
        (fun e => e.drop 5) =
      lo.flatMap (fun a => li.map (fun b => (rest a b).drop 4)) := by
  rw [List.map_map]
  rw [show ((fun e : List Int => e.drop 5) ∘
      (fun ci : (α × β) × Nat => ((ci.2 : Nat) : Int) :: rest ci.1.1 ci.1.2)) =
      (fun ci : (α × β) × Nat =>
        (fun c : α × β => (rest c.1 c.2).drop 4) ci.1) from by
    funext ci
    simp]
  rw [map_zip_fst (fun c : α × β => (rest c.1 c.2).drop 4) _ _ (by simp)]
  rw [List.map_flatMap]
  apply List.flatMap_congr
  intro a _
  rw [List.map_map]
  apply List.map_congr_left
  intro b _
  rfl

/-- C4 (amended): for every face id in `{1..6}` and resolvable block, the
quadrilaterals emitted by `_gen_boundary` are exactly those of the spec's
face table CORRECTED so that for faces 5 and 6 `range1` sweeps the third
logical axis (k) and `range2` the first (i); and no error is raised. -/
theorem gen_boundary_matches_table (p : P3D) (label : List Char)
    (blk face s1 e1 s2 e2 : Int) (g : GmshFile) (n : Nat)
    (hblk : blk - 1 = (n : Int)) (hn : n < p.length)
    (hlo : 1 ≤ face) (hhi : face ≤ 6) :
    specFaceQuadIds faceTableActual p (n : Int) (p.get ⟨n, hn⟩) face s1 e1 s2 e2 =
      some (((gen_boundary p (label, [blk, face, s1, e1, s2, e2]) g).1.elements.drop
        g.elements.length).map (fun e => e.drop 5)) ∧
    (gen_boundary p (label, [blk, face, s1, e1, s2, e2]) g).2 = none := by
  have hfin : ∀ rest : Int → Int → List Int, ∀ F : Int,
      specFaceQuadIds faceTableActual p (n : Int) (p.get ⟨n, hn⟩) F s1 e1 s2 e2 =
        some ((intRange (s2 - 1) (e2 - 1)).flatMap fun a =>
          (intRange (s1 - 1) (e1 - 1)).map fun b => (rest a b).drop 4) →
      specFaceQuadIds faceTableActual p (n : Int) (p.get ⟨n, hn⟩) F s1 e1 s2 e2 =
        some (List.map (fun e : List Int => e.drop 5)
          (List.map (fun ci => ((ci.2 : Nat) : Int) :: rest ci.1.1 ci.1.2)
            (((intRange (s2 - 1) (e2 - 1)).flatMap fun a =>
                (intRange (s1 - 1) (e1 - 1)).map fun b => (a, b)).zip
              (List.range' (g.element_id + 1)
                ((intRange (s2 - 1) (e2 - 1)).flatMap fun a =>
                  (intRange (s1 - 1) (e1 - 1)).map fun b => (a, b)).length)))) := by
    intro rest F h
    rw [map_drop5_emitted]
    exact h
  interval_cases face
  · refine ⟨?_, by simp [gen_boundary, hblk, pyIndex_lt p n hn]⟩
    simp only [gen_boundary, hblk, pyIndex_lt p n hn, Int.reduceEq, reduceIte]
    rw [foldl_emit2_elements]
    dsimp only
    rw [List.drop_left]
    refine hfin (fun a b => quadRest (next_group_id g)
      (nodeIdVal p (n : Int) b a 0) (nodeIdVal p (n : Int) (b + 1) a 0)
      (nodeIdVal p (n : Int) (b + 1) (a + 1) 0) (nodeIdVal p (n : Int) b (a + 1) 0)) 1 ?_
    simp only [specFaceQuadIds, specFaceQuads, faceTableActual, Option.map_some',
      List.map_flatMap, List.map_map]
    congr 1
  · refine ⟨?_, by simp [gen_boundary, hblk, pyIndex_lt p n hn]⟩
    simp only [gen_boundary, hblk, pyIndex_lt p n hn, Int.reduceEq, reduceIte]
    rw [foldl_emit2_elements]
    dsimp only
    rw [List.drop_left]
    refine hfin (fun a b => quadRest (next_group_id g)
      (nodeIdVal p (n : Int) b a (((p.get ⟨n, hn⟩).dk : Int) - 1)) (nodeIdVal p (n : Int) (b + 1) a (((p.get ⟨n, hn⟩).dk : Int) - 1))
      (nodeIdVal p (n : Int) (b + 1) (a + 1) (((p.get ⟨n, hn⟩).dk : Int) - 1)) (nodeIdVal p (n : Int) b (a + 1) (((p.get ⟨n, hn⟩).dk : Int) - 1))) 2 ?_
    simp only [specFaceQuadIds, specFaceQuads, faceTableActual, Option.map_some',
      List.map_flatMap, List.map_map]
    congr 1
  · refine ⟨?_, by simp [gen_boundary, hblk, pyIndex_lt p n hn]⟩
    simp only [gen_boundary, hblk, pyIndex_lt p n hn, Int.reduceEq, reduceIte]
    rw [foldl_emit2_elements]
    dsimp only
    rw [List.drop_left]
    refine hfin (fun a b => quadRest (next_group_id g)
      (nodeIdVal p (n : Int) 0 b a) (nodeIdVal p (n : Int) 0 (b + 1) a)
      (nodeIdVal p (n : Int) 0 (b + 1) (a + 1)) (nodeIdVal p (n : Int) 0 b (a + 1))) 3 ?_
    simp only [specFaceQuadIds, specFaceQuads, faceTableActual, Option.map_some',
      List.map_flatMap, List.map_map]
    congr 1
  · refine ⟨?_, by simp [gen_boundary, hblk, pyIndex_lt p n hn]⟩
    simp only [gen_boundary, hblk, pyIndex_lt p n hn, Int.reduceEq, reduceIte]
    rw [foldl_emit2_elements]
    dsimp only
    rw [List.drop_left]
    refine hfin (fun a b => quadRest (next_group_id g)
      (nodeIdVal p (n : Int) (((p.get ⟨n, hn⟩).di : Int) - 1) b a) (nodeIdVal p (n : Int) (((p.get ⟨n, hn⟩).di : Int) - 1) (b + 1) a)
      (nodeIdVal p (n : Int) (((p.get ⟨n, hn⟩).di : Int) - 1) (b + 1) (a + 1)) (nodeIdVal p (n : Int) (((p.get ⟨n, hn⟩).di : Int) - 1) b (a + 1))) 4 ?_
    simp only [specFaceQuadIds, specFaceQuads, faceTableActual, Option.map_some',
      List.map_flatMap, List.map_map]
    congr 1
  · refine ⟨?_, by simp [gen_boundary, hblk, pyIndex_lt p n hn]⟩
    simp only [gen_boundary, hblk, pyIndex_lt p n hn, Int.reduceEq, reduceIte]
    rw [foldl_emit2_elements]
    dsimp only
    rw [List.drop_left]
    refine hfin (fun a b => quadRest (next_group_id g)
      (nodeIdVal p (n : Int) a 0 b) (nodeIdVal p (n : Int) (a + 1) 0 b)
      (nodeIdVal p (n : Int) (a + 1) 0 (b + 1)) (nodeIdVal p (n : Int) a 0 (b + 1))) 5 ?_
    simp only [specFaceQuadIds, specFaceQuads, faceTableActual, Option.map_some',
      List.map_flatMap, List.map_map]
    congr 1
  · refine ⟨?_, by simp [gen_boundary, hblk, pyIndex_lt p n hn]⟩
    simp only [gen_boundary, hblk, pyIndex_lt p n hn, Int.reduceEq, reduceIte]
    rw [foldl_emit2_elements]
    dsimp only
    rw [List.drop_left]
    refine hfin (fun a b => quadRest (next_group_id g)
      (nodeIdVal p (n : Int) a (((p.get ⟨n, hn⟩).dj : Int) - 1) b) (nodeIdVal p (n : Int) (a + 1) (((p.get ⟨n, hn⟩).dj : Int) - 1) b)
      (nodeIdVal p (n : Int) (a + 1) (((p.get ⟨n, hn⟩).dj : Int) - 1) (b + 1)) (nodeIdVal p (n : Int) a (((p.get ⟨n, hn⟩).dj : Int) - 1) (b + 1))) 6 ?_
    simp only [specFaceQuadIds, specFaceQuads, faceTableActual, Option.map_some',
      List.map_flatMap, List.map_map]
    congr 1


/-- A `GmshFile` that has just registered the volume group, as `consume`
does before any boundary record is processed. -/
def gMesh : GmshFile :=
  { GmshFile.init with groups := [(3, 1, ['m', 'e', 's', 'h'])] }

/-- Witness for the amended C4 on the concrete grid, face 5. -/
theorem gen_boundary_matches_table_witness :
    (1 : Int) - 1 = ((0 : Nat) : Int) ∧ (0 : Nat) < pEx.length ∧
    (1 : Int) ≤ 5 ∧ (5 : Int) ≤ 6 ∧
    (specFaceQuadIds faceTableActual pEx ((0 : Nat) : Int)
        (pEx.get ⟨0, by decide⟩) 5 1 2 1 2 =
      some (((gen_boundary pEx (['w'], [1, 5, 1, 2, 1, 2]) gMesh).1.elements.drop
        gMesh.elements.length).map (fun e => e.drop 5)) ∧
     (gen_boundary pEx (['w'], [1, 5, 1, 2, 1, 2]) gMesh).2 = none) :=
  ⟨by decide, by decide, by decide, by decide,
    gen_boundary_matches_table pEx ['w'] 1 5 1 2 1 2 gMesh 0 (by decide)
      (by decide) (by decide) (by decide)⟩

/-- A single-block grid with extents `(2, 2, 3)` for the C4
counterexample. -/
def blkC : Block := ⟨2, 2, 3, fun _ _ _ => 0, fun _ _ _ => 0, fun _ _ _ => 0⟩

/-- The counterexample grid. -/
def pC4 : P3D := [blkC]

/-- C4 is false as stated: on face 5 with `range1 = (1,3)` on the claimed
first tangential axis and `range2 = (1,2)`, the code emits the quads
`[1,7,8,2]` and `[2,8,9,3]` (it sweeps the third axis k with `range1` and
the first axis i with `range2`), while the claimed table demands
`[1,7,8,2]` and `[7,13,14,8]`; the claimed quad `[7,13,14,8]` is not
emitted at all. -/
theorem boundary_face5_counterexample :
    ((gen_boundary pC4 (['w'], [1, 5, 1, 3, 1, 2]) gMesh).1.elements.map
        (fun e => e.drop 5)) = [[1, 7, 8, 2], [2, 8, 9, 3]] ∧
    specFaceQuadIds faceTableClaimed pC4 0 blkC 5 1 3 1 2 =
      some [[1, 7, 8, 2], [7, 13, 14, 8]] ∧
    [7, 13, 14, 8] ∉ ((gen_boundary pC4 (['w'], [1, 5, 1, 3, 1, 2]) gMesh).1.elements.map
        (fun e => e.drop 5)) := by decide

/-- C8: a boundary line whose quote-stripped label equals the
connectivity marker "one-to-one" is discarded at load time: the loaded
record list, and therefore the whole assembled mesh, are the same as if
the line were absent — it contributes zero elements and zero physical
groups. -/
theorem one_to_one_discarded (p : P3D) (pre post : List (List Char))
    (l : List Char) (hne : lineTokens l ≠ [])
    (hlbl : stripQuotes ((lineTokens l).headD []) = oneToOne) :
    parseBoundaries (pre ++ l :: post) = parseBoundaries (pre ++ post) ∧
    conversionOfLines p (pre ++ l :: post) = conversionOfLines p (pre ++ post) := by
  have hrec : parseRecord (lineTokens l) = some none := by
    cases htk : lineTokens l with
    | nil => exact absurd htk hne
    | cons t0 rest =>
      rw [htk] at hlbl
      simp only [List.headD_cons] at hlbl
      simp [parseRecord, hlbl]
  have hpb : ∀ pre2 : List (List Char),
      parseBoundaries (pre2 ++ l :: post) = parseBoundaries (pre2 ++ post) := by
    intro pre2
    induction pre2 with
    | nil =>
      simp only [List.nil_append, parseBoundaries, hrec]
      cases parseBoundaries post <;> simp
    | cons a t ih =>
      simp only [List.cons_append, parseBoundaries, List.append_eq]
      rw [ih]
  refine ⟨hpb pre, ?_⟩
  unfold conversionOfLines
  rw [hpb pre]

/-- Witness for C8 on a concrete descriptor with one connectivity line. -/
theorem one_to_one_discarded_witness :
    lineTokens "'one-to-one' 1 1 1 2 1 2".toList ≠ [] ∧
    stripQuotes ((lineTokens "'one-to-one' 1 1 1 2 1 2".toList).headD []) =
      oneToOne ∧
    (parseBoundaries ([] ++ "'one-to-one' 1 1 1 2 1 2".toList ::
        ["'wall' 2 1 1 2 1 2".toList]) =
      parseBoundaries ([] ++ ["'wall' 2 1 1 2 1 2".toList]) ∧
     conversionOfLines pEx ([] ++ "'one-to-one' 1 1 1 2 1 2".toList ::
        ["'wall' 2 1 1 2 1 2".toList]) =
      conversionOfLines pEx ([] ++ ["'wall' 2 1 1 2 1 2".toList])) :=
  ⟨by decide, by decide,
    one_to_one_discarded pEx [] ["'wall' 2 1 1 2 1 2".toList]
      "'one-to-one' 1 1 1 2 1 2".toList (by decide) (by decide)⟩

/-- C9 is false as stated: lines are iterated with their trailing
newline, so a record line continued with a backslash is never joined with
its continuation; on this concrete file the loader aborts on
`int('\x5c')` where the claimed join-before-parse semantics yields one
complete record. -/
theorem continuation_join_counterexample :
    parseBoundaries ["'w' 1 2 1 \\\n".toList, "3 1 3\n".toList] = none ∧
    specParseJoined ["'w' 1 2 1 \\\n".toList, "3 1 3\n".toList] =
      some [(['w'], [1, 2, 1, 3, 1, 3])] := by decide

/-- C9 (amended): continuation lines are never joined: every physical
line is parsed as its own record, and a line that does end with a
backslash (possible only for a final line that lacks a newline
terminator) merely has its last two characters stripped before it is
split into tokens. -/
theorem continuation_not_joined (l : List Char) (ls : List (List Char))
    (h : l.getLast? = some '\\') :
    parseBoundaries (l :: ls) =
      (parseRecord (pySplitWs (l.dropLast.dropLast))).bind (fun r? =>
        (parseBoundaries ls).map (fun rest => r?.toList ++ rest)) := by
  simp only [parseBoundaries, lineTokens, h, if_pos]
  cases parseRecord (pySplitWs (l.dropLast.dropLast)) with
  | none => rfl
  | some r =>
    cases parseBoundaries ls <;> rfl

/-- Witness for the amended C9 on a concrete final line without
newline. -/
theorem continuation_not_joined_witness :
    "'w' 1 2 1 3 1\\".toList.getLast? = some '\\' ∧
    parseBoundaries ["'w' 1 2 1 3 1\\".toList] =
      (parseRecord (pySplitWs ("'w' 1 2 1 3 1\\".toList.dropLast.dropLast))).bind
        (fun r? => (parseBoundaries ([] : List (List Char))).map
          (fun rest => r?.toList ++ rest)) :=
  ⟨by decide, continuation_not_joined "'w' 1 2 1 3 1\\".toList [] (by decide)⟩
